import Mathlib

/-!
# Verification of the apivalidation traversal engine

A shallow embedding of the reflection-driven validation, normalization and
schema-synthesis engine of the `apivalidation` Go library, together with
theorems checking its natural-language specification.

The embedding models Go interface values as an inductive type `GoVal`, rule
declarations (`FieldRules`) as `Binding`, and the concrete validation rules
shipped with the library (`Required`, `Min`, `Max`, `HasAlphabetic`,
`Unique`, ...) as executable Lean functions translated from their sources.
The external `ozzo-validation` collaborator's behaviour (`Indirect`,
`IsEmpty`, `RequiredRule.Validate`, `ThresholdRule.Validate`,
`ValidateStruct` error collection) is modelled from its documented and
test-pinned semantics, since the engine is written against that contract.

Machine addresses do not exist in the embedding: a `FieldRules` value in Go
binds a pointer into a field of a concrete container instance, and tag
resolution (`findStructField`) recovers the field's json tag from that
address.  The embedding instead lets a binding carry its resolved json tag
and the bound field's current value directly; address-resolution failures
are modelled separately (see `SBinding` below) for the claims about them.
-/

namespace APIValidation

/-! ## Go values and rule declarations

`GoVal` models the dynamic (interface) values the traversal engine walks:

* `vnil`           — a nil pointer or nil interface value;
* `vptr v`         — a non-nil pointer whose target is `v`;
* `vstr`, `vint`   — scalar values (the scalars the modelled rules inspect);
* `vstruct ptrOnly bs` — a struct value whose type implements the
  `Ruler`/`ContextRuler` declarator; `bs` is the binding list its `Rules()`
  returns for the instance's current field values.  `ptrOnly = true` means
  the declarator is implemented with a pointer receiver only, so a bare
  struct value does not satisfy the `Ruler` interface, only its address does
  (Go method-set semantics);
* `vplain`         — a struct or named scalar with no declarator capability;
* `vslice auto xs` / `vmap auto es` — a slice/array or string-keyed map;
  `auto` records the result of the static `shouldAutoValidate` check on the
  declared element type (elements of struct kind implementing a declarator,
  recursively through nested collections).

`Binding` models one `*FieldRules` entry of a `Rules()` result:

* `field tag rules value` — an ordinary binding: the resolved json tag of
  the bound field, the declared rule list and the field's current value.
  (Anonymous embedded fields whose type does NOT implement a declarator also
  take this form: `expandFields` passes them through unchanged.)
* `embedded sub` — a binding whose field pointer targets an anonymous
  (embedded) sub-container implementing `Ruler`/`ContextRuler`; `sub` is the
  binding list produced by the sub-container's own declarator.
-/

/-- Validation rules of the library that the claims exercise, as declared
data.  `uniq f` is the `Unique` rule with key-extraction function `f`
(string-keyed, the shape used throughout the library's own tests). -/
inductive RuleV where
  | required : RuleV
  | minR (t : Int) : RuleV
  | maxR (t : Int) : RuleV
  | hasAlpha (ccCheck : Bool) : RuleV
  | uniq (f : Nat → String) : RuleV

mutual
inductive GoVal where
  | vnil : GoVal
  | vptr (v : GoVal) : GoVal
  | vstr (s : String) : GoVal
  | vint (n : Int) : GoVal
  | vstruct (ptrOnly : Bool) (bs : List Binding) : GoVal
  | vplain : GoVal
  | vslice (auto : Bool) (xs : List GoVal) : GoVal
  | vmap (auto : Bool) (es : List (String × GoVal)) : GoVal

inductive Binding where
  | field (tag : String) (rules : List RuleV) (value : GoVal) : Binding
  | embedded (sub : List Binding) : Binding
end

/-! ## The Embedding Expander (`expandFields`, string.go)

```go
func expandFields(ctx context.Context, structPtr any, fields []*FieldRules) []*FieldRules {
    ...
    result := make([]*FieldRules, 0, len(fields))
    for _, fr := range fields {
        fv := reflect.ValueOf(fr.fieldPtr)
        if fv.Kind() == reflect.Ptr {
            if sf := findStructField(structVal, fv); sf != nil && sf.Anonymous {
                embeddedPtr := fv.Interface()
                if r, ok := embeddedPtr.(Ruler); ok {
                    result = append(result, expandFields(ctx, embeddedPtr, r.Rules())...)
                    continue
                }
                if r, ok := embeddedPtr.(ContextRuler); ok {
                    result = append(result, expandFields(ctx, embeddedPtr, r.Rules(ctx))...)
                    continue
                }
            }
        }
        result = append(result, fr)
    }
    return result
}
```

The `Binding.embedded` constructor is exactly the `anonymous field whose
pointer implements Ruler/ContextRuler` case; every other binding falls
through to `result = append(result, fr)`.  The context passed to
`ContextRuler.Rules` only chooses which binding list the sub-container
produces; in the embedding that list is already materialised in `embedded`.
-/
def expandFields : List Binding → List Binding
  | [] => []
  | .field t rs v :: rest => .field t rs v :: expandFields rest
  | .embedded sub :: rest => expandFields sub ++ expandFields rest

/-- Recursive expansion replaces each embedded binding in place and passes
field bindings through: `expandFields` is the flat-map of its one-binding
action. -/
def expandOne : Binding → List Binding
  | .field t rs v => [.field t rs v]
  | .embedded sub => expandFields sub

theorem expandFields_eq_flatMap (bs : List Binding) :
    expandFields bs = bs.flatMap expandOne := by
  induction bs with
  | nil => simp [expandFields]
  | cons b rest ih =>
    cases b with
    | field t rs v => simp [expandFields, expandOne, ih]
    | embedded sub => simp [expandFields, expandOne, ih]

theorem expandFields_append (l₁ l₂ : List Binding) :
    expandFields (l₁ ++ l₂) = expandFields l₁ ++ expandFields l₂ := by
  simp [expandFields_eq_flatMap]

/-- After expansion no embedded binding remains: each embedded binding was
replaced by its sub-container's recursively expanded list. -/
theorem expandFields_no_embedded (bs : List Binding) :
    ∀ b ∈ expandFields bs, ∃ t rs v, b = Binding.field t rs v := by
  induction bs using expandFields.induct with
  | case1 => simp [expandFields]
  | case2 t rs v rest ih =>
    intro b hb
    simp only [expandFields, List.mem_cons] at hb
    rcases hb with rfl | hb
    · exact ⟨t, rs, v, rfl⟩
    · exact ih b hb
  | case3 sub rest ih₁ ih₂ =>
    intro b hb
    simp only [expandFields, List.mem_append] at hb
    rcases hb with hb | hb
    · exact ih₁ b hb
    · exact ih₂ b hb

/-! ## The ozzo-validation collaborator

The engine delegates per-value checks to `ozzo-validation` v4.  The modelled
fragments, written from that library's documented semantics (pinned by the
repository's own tests, e.g. `TestMinMax`):

* `Indirect(value)` dereferences pointers/interfaces and reports nil;
* `IsEmpty(value)` is the zero-value test (empty string, 0, empty
  slice/map, invalid value);
* `Required.Validate` errors with "cannot be blank" when the indirected
  value is nil or empty;
* `ThresholdRule.Validate` compares the value with the threshold and errors
  with "must be no less than %v" / "must be no greater than %v".
-/

/-- Rendering of the dynamic type of a value in the fmt style (used in the
`expected string, got %T` message of `hasAlphabetic.Validate`). -/
def typeName : GoVal → String
  | .vnil => "<nil>"
  | .vptr _ => "ptr"
  | .vstr _ => "string"
  | .vint _ => "int"
  | .vstruct _ _ => "struct"
  | .vplain => "struct"
  | .vslice _ _ => "slice"
  | .vmap _ _ => "map"

/-- Model of ozzo `Indirect`: dereference pointers, `none` when the value is nil. -/
def goIndirect : GoVal → Option GoVal
  | .vnil => none
  | .vptr v => goIndirect v
  | v => some v

/-- Model of ozzo `IsEmpty`: the zero-value test on an already-indirected value. -/
def goIsEmpty : GoVal → Bool
  | .vnil => true
  | .vptr v => goIsEmpty v
  | .vstr s => s == ""
  | .vint n => n == 0
  | .vstruct _ _ => false
  | .vplain => false
  | .vslice _ xs => xs.isEmpty
  | .vmap _ es => es.isEmpty

/-- The "empty value" notion of the Rule Contract: nil after indirection, or
the zero value of the underlying kind. -/
def goNilOrEmpty (v : GoVal) : Bool :=
  match goIndirect v with
  | none => true
  | some w => goIsEmpty w

/-- Model of `requiredRule.Validate` (required.go wraps ozzo `validation.Required`):
reject nil and empty values, accept everything else. -/
def requiredValidate (v : GoVal) : Option String :=
  if goNilOrEmpty v then some "cannot be blank" else none

/-- The numeric comparison of ozzo's `ThresholdRule` for an integer
threshold: `min` demands `threshold ≤ n`, `max` demands `n ≤ threshold`. -/
def thresholdCompare (isMin : Bool) (t n : Int) : Option String :=
  if isMin then
    if t ≤ n then none else some s!"must be no less than {t}"
  else
    if n ≤ t then none else some s!"must be no greater than {t}"

/-- Model of `thresholdRule.Validate` (minmax.go): skip nil/empty values, compare
numbers directly, parse numeric strings first (`strconv.ParseInt` for an
integer threshold; a parse failure is "must be int64"), and fail on any
other kind (ozzo cannot convert it to the threshold's type).
`String.toInt?` stands in for `strconv.ParseInt(s, 10, 64)`: the 64-bit
range bound and Go's acceptance of a leading '+' are not modelled — no
theorem in this development reaches the string-parse branch. -/
def thresholdValidate (isMin : Bool) (t : Int) (v : GoVal) : Option String :=
  match goIndirect v with
  | none => none
  | some w =>
    if goIsEmpty w then none
    else
      match w with
      | .vint n => thresholdCompare isMin t n
      | .vstr s =>
        match s.toInt? with
        | some n => thresholdCompare isMin t n
        | none => some "must be int64"
      | ww =>
        let tn := typeName ww
        some s!"cannot convert {tn}"

/-- Model of `strings.TrimSpace` over the character list.  `Char.isWhitespace`
covers ASCII space/tab/CR/LF where Go trims all Unicode whitespace; the
proven conjuncts about `hasAlphaValidate` only exercise the empty string,
which both notions treat alike. -/
def trimSpace (s : String) : String :=
  ⟨((s.toList.dropWhile Char.isWhitespace).reverse.dropWhile Char.isWhitespace).reverse⟩

/-- Model of `hasAlphabetic.Validate` (length.go): require a string; after trimming
whitespace accept the empty string; if no ASCII alphabetic character
remains, fail (or run the credit-card-length check when
`isCreditCardNumberCheck` is set). -/
def hasAlphaValidate (ccCheck : Bool) (v : GoVal) : Option String :=
  match v with
  | .vstr s =>
    let s' := trimSpace s
    if s' = "" then none
    else if s'.toList.any (·.isAlpha) then none
    else if ccCheck then
      if (s'.toList.filter (·.isDigit)).length ≠ 16 then none
      else some "must not be a credit card number"
    else some "must contain at least one alphabetic character"
  | w => some s!"expected string, got {typeName w}"

/-- Model of `uniqueRule.Validate` (Unique): nil pointers pass; on a slice/array of
length `l`, insert `f 0 .. f (l-1)` into a set and fail when the set is
smaller than `l`; any other kind fails with "must be slice".  Generic in
the key type, matching the `any`-keyed Go map. -/
def uniqueValidate {K : Type} [DecidableEq K] (f : Nat → K) (v : GoVal) : Option String :=
  match v with
  | .vnil => none
  | .vptr w => uniqueValidateBody f w
  | w => uniqueValidateBody f w
where
  uniqueValidateBody {K : Type} [DecidableEq K] (f : Nat → K) : GoVal → Option String
  | .vslice _ xs =>
    if (((List.range xs.length).map f).dedup).length ≠ xs.length then
      some "not unique"
    else none
  | _ => some "must be slice"

/-- Dispatch of a declared rule's `Validate`. -/
def ruleValidate : RuleV → GoVal → Option String
  | .required, v => requiredValidate v
  | .minR t, v => thresholdValidate true t v
  | .maxR t, v => thresholdValidate false t v
  | .hasAlpha cc, v => hasAlphaValidate cc v
  | .uniq f, v => uniqueValidate f v

/-! ## The Validation Traversal Engine (validate.go) -/

/-- A validation error: either a single rule's message or an aggregated
`validation.Errors` map from field key to nested error, modelled as an
association list in traversal order. -/
inductive VErr where
  | msg (s : String) : VErr
  | errs (m : List (String × VErr)) : VErr

/-- Models how `validation.ValidateStruct` / `validateSlice` / `validateMap` return nil
when no field/element collected an error, and the aggregated `Errors`
otherwise. -/
def structResult (l : List (String × VErr)) : Option VErr :=
  if l.isEmpty then none else some (.errs l)

mutual
/-- Model of `validateCore` (validate.go): nil pointers succeed; `Ruler`
values reached through a pointer — or, for a bare struct whose declarator
has a pointer receiver, through the address of a fresh copy (lines 85–95) —
are validated via `ValidateStruct` over their converted field rules.  A
bare struct whose declarator has a VALUE receiver satisfies `value.(Ruler)`
at line 77 and is passed, still a non-pointer, straight to ozzo's
`validation.ValidateStruct`, which rejects any non-pointer argument with
`NewInternalError(ErrStructPointer)` ("only a pointer to a struct can be
validated") instead of producing field-keyed errors.  Pointers to anything
else are dereferenced; collections whose element type passes
`shouldAutoValidate` (the `auto` flag) have every element validated; all
other values succeed.  (The `ValueRuler` path of the source is outside the
modelled claims and is not represented in `GoVal`.) -/
def validateCore : GoVal → Option VErr
  | .vnil => none
  | .vstruct false _ => some (.msg "only a pointer to a struct can be validated")
  | .vptr (.vstruct _ bs) => structResult (validateStructB bs)
  | .vstruct true bs =>
    -- Non-pointer struct value: ptr := reflect.New(rv.Type());
    -- ptr.Elem().Set(rv); re-check Ruler/ContextRuler on ptr.Interface().
    -- The fresh copy holds the same field values, so its Rules() output is
    -- the same binding list `bs`.
    structResult (validateStructB bs)
  | .vptr v => validateCore v
  | .vslice true xs => structResult (validateSliceM xs 0)
  | .vmap true es => structResult (validateMapM es)
  | _ => none

/-- Model of `validation.ValidateStruct ∘ convertFieldRules`: validate each field
binding of the (to-be-expanded) list against its rules, collecting
`(resolved tag, error)` pairs.  The `embedded` case mirrors what the
composed pipeline does with an embedded binding — it is replaced by its
expansion, whose errors surface at the top level (the refinement theorem
`validateStructB_eq_flat` below equates this with literally expanding first
and then validating the flat list, as the source does). -/
def validateStructB : List Binding → List (String × VErr)
  | [] => []
  | .field t rs v :: rest =>
    match fieldValidate rs v with
    | some e => (t, e) :: validateStructB rest
    | none => validateStructB rest
  | .embedded sub :: rest => validateStructB sub ++ validateStructB rest

/-- One ozzo field validation: the declared rules run in order and
short-circuit on the first error; when they all pass, the `rulerBridge`
appended by `convertFieldRules` re-enters `validateCore` on the field
value. -/
def fieldValidate : List RuleV → GoVal → Option VErr
  | [], v => validateCore v
  | r :: rs, v =>
    match ruleValidate r v with
    | some m => some (.msg m)
    | none => fieldValidate rs v

/-- Model of `validateElement` (validate.go): nil pointer/interface elements are
skipped; struct elements are validated through their address (or the
address of a fresh copy when not addressable) whenever the pointer type
implements a declarator; nested collections re-enter `validateCore`;
everything else (including pointer elements, whose double-pointer carries no
declarator method set) succeeds. -/
def validateElement : GoVal → Option VErr
  | .vnil => none
  | .vstruct _ bs =>
    -- ptr = v.Addr() / fresh copy; ptr.Interface().(Ruler) holds for both
    -- receiver styles, and validateCore on that pointer validates `bs`.
    structResult (validateStructB bs)
  | .vslice a xs => validateCore (.vslice a xs)
  | .vmap a es => validateCore (.vmap a es)
  | _ => none

/-- Model of `validateSlice`: element `i` contributes key `strconv.Itoa(i)` when
invalid.  The running index starts at 0 at the call site. -/
def validateSliceM : List GoVal → Nat → List (String × VErr)
  | [], _ => []
  | x :: xs, i =>
    match validateElement x with
    | some e => (Nat.repr i, e) :: validateSliceM xs (i + 1)
    | none => validateSliceM xs (i + 1)

/-- Model of `validateMap`: entry `(k, v)` contributes key `fmt.Sprintf("%v", k)`
(the identity on the string keys modelled here) when `v` is invalid. -/
def validateMapM : List (String × GoVal) → List (String × VErr)
  | [] => []
  | (k, x) :: es =>
    match validateElement x with
    | some e => (k, e) :: validateMapM es
    | none => validateMapM es
end

/-- The literal pipeline of `convertFieldRules`: the binding list has
already been flattened by `ExpandFields`, and each flat binding is turned
into an ozzo field rule and validated in order.  (An `embedded` binding
never survives expansion — `expandFields_no_embedded` — so its arm is the
vacuous skip.) -/
def validateFlat : List Binding → List (String × VErr)
  | [] => []
  | .field t rs v :: rest =>
    match fieldValidate rs v with
    | some e => (t, e) :: validateFlat rest
    | none => validateFlat rest
  | .embedded _ :: rest => validateFlat rest

theorem validateFlat_append (l₁ l₂ : List Binding) :
    validateFlat (l₁ ++ l₂) = validateFlat l₁ ++ validateFlat l₂ := by
  induction l₁ with
  | nil => simp [validateFlat]
  | cons b rest ih =>
    cases b with
    | field t rs v =>
      cases h : fieldValidate rs v <;> simp [validateFlat, h, ih]
    | embedded sub => simp [validateFlat, ih]

/-- Refinement: validating the binding list as the engine does equals
expanding first (`ExpandFields`, as `convertFieldRules` literally does) and
validating the flat list. -/
theorem validateStructB_eq_flat (bs : List Binding) :
    validateStructB bs = validateFlat (expandFields bs) := by
  induction bs using expandFields.induct with
  | case1 => simp [validateStructB, expandFields, validateFlat]
  | case2 t rs v rest ih =>
    simp only [validateStructB, expandFields, validateFlat, ih]
  | case3 sub rest ih₁ ih₂ =>
    simp only [validateStructB, expandFields, validateFlat_append, ih₁, ih₂]

theorem validateFlat_mem_of_field {l : List Binding} {t : String} {rs : List RuleV}
    {v : GoVal} {e : VErr} (hmem : Binding.field t rs v ∈ l)
    (herr : fieldValidate rs v = some e) : (t, e) ∈ validateFlat l := by
  induction l with
  | nil => cases hmem
  | cons b rest ih =>
    cases b with
    | field t' rs' v' =>
      rcases List.mem_cons.mp hmem with heq | hmem'
      · obtain ⟨rfl, rfl, rfl⟩ := Binding.field.inj heq
        simp [validateFlat, herr]
      · simp only [validateFlat]
        cases fieldValidate rs' v' <;> simp [ih hmem']
    | embedded sub =>
      have hmem' : Binding.field t rs v ∈ rest := by
        rcases List.mem_cons.mp hmem with heq | h
        · simp at heq
        · exact h
      simpa [validateFlat] using ih hmem'

/-- The resolved tag of a binding: the json tag for a field binding, the
empty string for an (anonymous) embedded binding — exactly what
`mapFieldsToTags` assigns (schema.go lines 80–85). -/
def bindingTag : Binding → String
  | .field t _ _ => t
  | .embedded _ => ""

theorem validateFlat_keys_sub {l : List Binding} {k : String} {e : VErr}
    (h : (k, e) ∈ validateFlat l) : k ∈ l.map bindingTag := by
  induction l with
  | nil => cases h
  | cons b rest ih =>
    cases b with
    | field t rs v =>
      revert h
      simp only [validateFlat]
      cases hf : fieldValidate rs v with
      | none => intro h; simp [bindingTag, ih h]
      | some e' =>
        intro h
        rcases List.mem_cons.mp h with heq | h
        · have : k = t := congrArg Prod.fst heq
          simp [bindingTag, this]
        · simp [bindingTag, ih h]
    | embedded sub =>
      have h' : (k, e) ∈ validateFlat rest := by simpa [validateFlat] using h
      simp [bindingTag, ih h']

/-! ## The two expansion call sites (claims C1, C2) -/

/-- part_001 line 236: `flat := ExpandFields(ctx, structPtr, fields)` — the
flat binding list `convertFieldRules` computes before building the ozzo
field rules used for validation. -/
def convertFieldRulesFlat (bs : List Binding) : List Binding := expandFields bs

/-- schema.go line 132: `fields = expandFields(context.Background(), vi,
fields)` — the flat binding list `schemaDoc` computes before tag mapping and
schema decoration. -/
def schemaDocFlat (bs : List Binding) : List Binding := expandFields bs

/-- C1: For every container value and its declared binding list, the flat
binding list produced by the Embedding Expander before validation (in
`convertFieldRules`) is identical to the flat binding list produced before
schema synthesis (in `schemaDoc`); consequently every validation error key
is among the tags the schema pass derives from its flat list, so error keys
and schema property names agree. -/
theorem c1_expander_call_sites_agree :
    (∀ bs : List Binding, convertFieldRulesFlat bs = schemaDocFlat bs)
    ∧ ∀ (bs : List Binding) (k : String) (e : VErr),
        (k, e) ∈ validateStructB bs → k ∈ (schemaDocFlat bs).map bindingTag := by
  refine ⟨fun bs => rfl, fun bs k e h => ?_⟩
  rw [validateStructB_eq_flat] at h
  exact validateFlat_keys_sub h

/-- Witness for C1 at a concrete container with an embedded sub-container:
both call sites produce the same flat list, and the validation error key
"id" is among the schema-side property tags. -/
theorem c1_expander_call_sites_agree_witness :
    convertFieldRulesFlat [Binding.embedded [.field "id" [.required] (.vstr "")]] =
      schemaDocFlat [Binding.embedded [.field "id" [.required] (.vstr "")]]
    ∧ "id" ∈ (schemaDocFlat
        [Binding.embedded [.field "id" [.required] (.vstr "")]]).map bindingTag :=
  ⟨c1_expander_call_sites_agree.1 [Binding.embedded [.field "id" [.required] (.vstr "")]],
   c1_expander_call_sites_agree.2 [Binding.embedded [.field "id" [.required] (.vstr "")]]
     "id" (.msg "cannot be blank")
     (by simp [validateStructB, fieldValidate, ruleValidate, requiredValidate,
       goNilOrEmpty, goIndirect, goIsEmpty])⟩

/-- C2: Expansion replaces an anonymous embedded `Ruler` binding, in
place, with the sub-container's recursively expanded flat binding list;
non-embedded bindings pass through unchanged; consequently, when the
container is validated through a pointer (the `Validate(&v)` entry, either
receiver style), an invalid field inside the embedded part yields a
top-level error key equal to the embedded field's own tag (never nested
under the embedded type's name). -/
theorem c2_embedded_bindings_flatten :
    (∀ bs : List Binding, expandFields bs = bs.flatMap expandOne)
    ∧ (∀ (t : String) (rs : List RuleV) (v : GoVal), expandOne (.field t rs v) = [.field t rs v])
    ∧ (∀ sub : List Binding, expandOne (.embedded sub) = expandFields sub)
    ∧ ∀ (po : Bool) (pre sub post : List Binding) (t : String) (rs : List RuleV)
        (v : GoVal) (e : VErr),
        Binding.field t rs v ∈ expandFields sub →
        fieldValidate rs v = some e →
        ∃ es, validateCore (.vptr (.vstruct po (pre ++ .embedded sub :: post))) =
            some (.errs es)
          ∧ (t, e) ∈ es := by
  refine ⟨expandFields_eq_flatMap, fun _ _ _ => rfl, fun _ => rfl, ?_⟩
  intro po pre sub post t rs v e hmem herr
  have hcore : validateCore (.vptr (.vstruct po (pre ++ .embedded sub :: post))) =
      structResult (validateStructB (pre ++ .embedded sub :: post)) := by
    simp [validateCore]
  have hflat : validateStructB (pre ++ .embedded sub :: post) =
      validateFlat (expandFields pre) ++
        (validateFlat (expandFields sub) ++ validateFlat (expandFields post)) := by
    rw [validateStructB_eq_flat]
    have hsplit : expandFields (pre ++ .embedded sub :: post) =
        expandFields pre ++ (expandFields sub ++ expandFields post) := by
      rw [expandFields_append]
      simp [expandFields, expandFields_append]
    rw [hsplit, validateFlat_append, validateFlat_append]
  have hin : (t, e) ∈ validateStructB (pre ++ .embedded sub :: post) := by
    rw [hflat]
    exact List.mem_append.mpr (Or.inr
      (List.mem_append.mpr (Or.inl (validateFlat_mem_of_field hmem herr))))
  refine ⟨validateStructB (pre ++ .embedded sub :: post), ?_, hin⟩
  rw [hcore, structResult, if_neg]
  exact fun hnil => by simp [List.isEmpty_iff.mp hnil] at hin

/-- Witness for C2 at a concrete container: a struct with one anonymous
embedded sub-container declaring `Field(&b.ID, Required)` and an empty `ID`;
the aggregated error carries the flat key "id". -/
theorem c2_embedded_bindings_flatten_witness :
    ∃ es, validateCore (.vptr (.vstruct true
        [Binding.embedded [.field "id" [.required] (.vstr "")]])) = some (.errs es)
      ∧ ("id", VErr.msg "cannot be blank") ∈ es :=
  c2_embedded_bindings_flatten.2.2.2 true [] [.field "id" [.required] (.vstr "")] []
    "id" [.required] (.vstr "") (.msg "cannot be blank")
    (by simp [expandFields])
    (by simp [fieldValidate, ruleValidate, requiredValidate, goNilOrEmpty,
      goIndirect, goIsEmpty])

/-! ## Collection auto-validation (claims C3, C4) -/

theorem validateSliceM_spec (xs : List GoVal) (i : Nat) :
    validateSliceM xs i = (List.range xs.length).filterMap fun j =>
      (validateElement (xs.getD j .vnil)).map fun e => (Nat.repr (i + j), e) := by
  induction xs generalizing i with
  | nil => simp [validateSliceM]
  | cons x xs ih =>
    simp only [validateSliceM, List.length_cons, List.range_succ_eq_map,
      List.filterMap_cons, List.filterMap_map, List.getD_cons_zero]
    have htail : (List.filterMap
        ((fun j => (validateElement ((x :: xs).getD j .vnil)).map
            fun e => (Nat.repr (i + j), e)) ∘ Nat.succ) (List.range xs.length)) =
        validateSliceM xs (i + 1) := by
      rw [ih (i + 1)]
      apply List.filterMap_congr
      intro j _
      have : i + (j + 1) = i + 1 + j := by omega
      simp [Function.comp, this]
    cases h : validateElement x with
    | none => simp only [h, Option.map_none', htail, Nat.add_zero]
    | some e => simp only [h, Option.map_some', htail, Nat.add_zero]

theorem validateMapM_spec (es : List (String × GoVal)) :
    validateMapM es = es.filterMap fun kv =>
      (validateElement kv.2).map fun e => (kv.1, e) := by
  induction es with
  | nil => simp [validateMapM]
  | cons kv rest ih =>
    obtain ⟨k, x⟩ := kv
    cases h : validateElement x <;> simp [validateMapM, h, ih]

/-- C3: For every auto-validated collection, slice/array element `i`
(0-indexed) contributes key `Itoa i` bound to that element's own validation
error exactly when the element is invalid (and nothing else); a map entry
contributes its stringified key the same way; and nil pointer/interface
elements are skipped, contributing no error. -/
theorem c3_collection_error_keys :
    (∀ xs : List GoVal, validateSliceM xs 0 =
        (List.range xs.length).filterMap fun i =>
          (validateElement (xs.getD i .vnil)).map fun e => (Nat.repr i, e))
    ∧ (∀ es : List (String × GoVal), validateMapM es =
        es.filterMap fun kv => (validateElement kv.2).map fun e => (kv.1, e))
    ∧ validateElement .vnil = none := by
  refine ⟨fun xs => ?_, validateMapM_spec, by simp [validateElement]⟩
  have h := validateSliceM_spec xs 0
  simpa using h

/-- C4: A non-pointer struct value whose declarator is implemented with a
pointer receiver is still validated: `validateCore` takes the address of a
fresh copy, re-checks `Ruler`/`ContextRuler` through that pointer, and
produces the same result as validating the struct through a pointer — the
same `ValidateStruct` run over its binding list, never a silent skip. -/
theorem c4_pointer_receiver_not_skipped :
    ∀ bs : List Binding,
      validateCore (.vstruct true bs) = validateCore (.vptr (.vstruct true bs))
      ∧ validateCore (.vstruct true bs) = structResult (validateStructB bs) := by
  intro bs
  exact ⟨by simp [validateCore], by simp [validateCore]⟩

/-! ## The Unique rule (claim C9) -/

/-- The kinds of value on which `uniqueRule.Validate` does not fail with
"must be slice": nil, a slice/array, or a pointer to one. -/
def uniqueApplicable : GoVal → Bool
  | .vnil => true
  | .vslice _ _ => true
  | .vptr (.vslice _ _) => true
  | _ => false

/-- C9: the `Unique` rule with key extraction `f` fails on a slice exactly when
the extracted keys `f 0 … f (len-1)` contain a duplicate (the inserted set
is smaller than the length iff the key list is not `Nodup`); a nil slice
pointer validates successfully; any non-slice value fails. -/
theorem c9_unique_rule :
    (∀ (K : Type) (_ : DecidableEq K) (f : Nat → K) (a : Bool) (xs : List GoVal),
        uniqueValidate f (.vslice a xs) = none ↔ ((List.range xs.length).map f).Nodup)
    ∧ (∀ (K : Type) (_ : DecidableEq K) (f : Nat → K), uniqueValidate f .vnil = none)
    ∧ ∀ (K : Type) (_ : DecidableEq K) (f : Nat → K) (v : GoVal),
        uniqueApplicable v = false → uniqueValidate f v ≠ none := by
  refine ⟨?_, fun K _ f => rfl, ?_⟩
  · intro K _ f a xs
    have hlen : ((List.range xs.length).map f).length = xs.length := by simp
    constructor
    · intro h
      by_contra hnd
      have : (((List.range xs.length).map f).dedup).length ≠ xs.length := by
        intro hd
        exact hnd (List.dedup_eq_self.mp
          ((((List.range xs.length).map f).dedup_sublist).eq_of_length (hd.trans hlen.symm)))
      simp [uniqueValidate, uniqueValidate.uniqueValidateBody, this] at h
    · intro hnd
      have : (((List.range xs.length).map f).dedup).length = xs.length := by
        rw [List.dedup_eq_self.mpr hnd, hlen]
      simp [uniqueValidate, uniqueValidate.uniqueValidateBody, this]
  · intro K _ f v hv
    cases v with
    | vnil => simp [uniqueApplicable] at hv
    | vptr w =>
      cases w <;>
        simp_all [uniqueApplicable, uniqueValidate, uniqueValidate.uniqueValidateBody]
    | vslice a xs => simp [uniqueApplicable] at hv
    | _ => simp [uniqueValidate, uniqueValidate.uniqueValidateBody]

/-- Witness for C9: extracting `["ach", "ach"]` fails, `["ach", "cc"]`
passes, a nil slice pointer passes, and a plain string fails with the
non-slice error. -/
theorem c9_unique_rule_witness :
    (uniqueValidate (fun i => if i = 0 then "ach" else "ach")
        (.vslice true [.vplain, .vplain]) ≠ none)
    ∧ uniqueValidate (fun i => if i = 0 then "ach" else "cc")
        (.vslice true [.vplain, .vplain]) = none
    ∧ uniqueValidate (fun _ => "ach") .vnil = none
    ∧ uniqueValidate (fun _ => "ach") (.vstr "x") ≠ none := by
  refine ⟨?_, ?_, c9_unique_rule.2.1 String inferInstance (fun _ => "ach"), ?_⟩
  · intro h
    have := (c9_unique_rule.1 String inferInstance _ true [.vplain, .vplain]).mp h
    simp [List.range_succ] at this
  · exact (c9_unique_rule.1 String inferInstance _ true [.vplain, .vplain]).mpr
      (by simp [List.range_succ])
  · exact c9_unique_rule.2.2 String inferInstance (fun _ => "ach") (.vstr "x") rfl

/-! ## The "skip on empty" convention (claim C8) -/

/-- C8 counterexample: `HasAlphabetic` is not a required/non-nil rule,
and nil is an empty value (`goNilOrEmpty .vnil = true`), yet its `Validate`
rejects nil with a type error instead of succeeding: the rule demands a
string before it applies its skip-on-empty convention
(`v, ok := value.(string); if !ok { return fmt.Errorf("expected string, got %T", value) }`). -/
theorem c8_empty_skip_counterexample :
    goNilOrEmpty .vnil = true
    ∧ ruleValidate (.hasAlpha false) .vnil = some "expected string, got <nil>" := by
  constructor <;> rfl

/-- C8 amended: `Min` and `Max` return success when validating an empty
value (nil after indirection, the zero value, or the empty string), and
`HasAlphabetic` returns success on the empty string — but `HasAlphabetic`
rejects nil and other non-string inputs with a type error.  The `Required`
rule rejects every empty value with "cannot be blank". -/
theorem c8_empty_skip_amended :
    (∀ (t : Int) (v : GoVal), goNilOrEmpty v = true → thresholdValidate true t v = none)
    ∧ (∀ (t : Int) (v : GoVal), goNilOrEmpty v = true → thresholdValidate false t v = none)
    ∧ (∀ cc : Bool, hasAlphaValidate cc (.vstr "") = none)
    ∧ (∀ v : GoVal, (∀ s : String, v ≠ .vstr s) → ∃ m, hasAlphaValidate false v = some m)
    ∧ ∀ v : GoVal, goNilOrEmpty v = true → requiredValidate v = some "cannot be blank" := by
  have hth : ∀ (isMin : Bool) (t : Int) (v : GoVal), goNilOrEmpty v = true →
      thresholdValidate isMin t v = none := by
    intro isMin t v hv
    unfold goNilOrEmpty at hv
    unfold thresholdValidate
    cases hind : goIndirect v with
    | none => rfl
    | some w => simp only [hind] at hv ⊢; simp [hv]
  refine ⟨hth true, hth false, fun cc => rfl, ?_, ?_⟩
  · intro v hv
    cases v with
    | vstr s => exact absurd rfl (hv s)
    | _ => exact ⟨_, rfl⟩
  · intro v hv
    simp [requiredValidate, hv]

/-! ## Schema-generation tag resolution (claim C5)

`mapFieldsToTags` (schema.go lines 70–88) resolves each binding's field
pointer to its json tag by address comparison.  The embedding records the
outcome of that address resolution per binding:

* `resolved anon tag` — the pointer resolves to a struct field; anonymous
  fields get the empty tag (handled by recursion, not direct rules);
* `nonPtr kind` — the binding's target is not a pointer at all;
* `unresolved` — the pointer does not match any field address of the
  enclosing container (a binding built against the wrong instance).
-/

/-- A binding as seen by schema-generation tag resolution. -/
inductive SBinding where
  | resolved (anon : Bool) (tag : String) : SBinding
  | nonPtr (kind : String) : SBinding
  | unresolved : SBinding

/-- Model of `mapFieldsToTags`: walk the bindings with their index, assign each its
tag, and abort with the formatted error on the first non-pointer or
unresolvable binding. -/
def mapFieldsToTags (structName : String) : List SBinding → Nat → Except String (List String)
  | [], _ => .ok []
  | .nonPtr k :: _, i =>
    .error s!"rule target for field index {i} must be a pointer, got {k}"
  | .unresolved :: _, i =>
    .error s!"rule target for field index {i} not found in struct {structName}"
  | .resolved true _ :: rest, i =>
    (mapFieldsToTags structName rest (i + 1)).map (fun ts => "" :: ts)
  | .resolved false tag :: rest, i =>
    (mapFieldsToTags structName rest (i + 1)).map (fun ts => tag :: ts)

/-- The tag-resolution stage of `schemaDoc` on the already-expanded flat
binding list: `if err := mapFieldsToTags(fields, structVal); err != nil {
return err }` — the customizer returns the error to the generator. -/
def schemaDocTags (structName : String) (bs : List SBinding) : Except String (List String) :=
  mapFieldsToTags structName bs 0

/-- Model of `NewRequest` / `newSchemaRefForValue`: an empty value list is an error;
otherwise each value's schema is generated in turn and the first
tag-resolution failure aborts the whole call. -/
def newRequestTags : List (String × List SBinding) → Except String (List (List String))
  | [] => .error "no values given"
  | vs => go vs
where
  go : List (String × List SBinding) → Except String (List (List String))
  | [] => .ok []
  | (nm, bs) :: rest =>
    match schemaDocTags nm bs with
    | .error e => .error e
    | .ok ts => (go rest).map (fun acc => ts :: acc)

/-- A binding whose location is not a pointer or whose address does not
resolve to a field of the enclosing container. -/
def badBinding : SBinding → Bool
  | .nonPtr _ => true
  | .unresolved => true
  | .resolved _ _ => false

theorem mapFieldsToTags_error_of_bad {bs : List SBinding} {b : SBinding}
    (hmem : b ∈ bs) (hbad : badBinding b = true) :
    ∀ (nm : String) (i : Nat), ∃ e, mapFieldsToTags nm bs i = .error e := by
  induction bs with
  | nil => cases hmem
  | cons hd rest ih =>
    intro nm i
    cases hd with
    | nonPtr k => exact ⟨_, rfl⟩
    | unresolved => exact ⟨_, rfl⟩
    | resolved anon tag =>
      have hmem' : b ∈ rest := by
        rcases List.mem_cons.mp hmem with rfl | h
        · simp [badBinding] at hbad
        · exact h
      obtain ⟨e, he⟩ := ih hmem' nm (i + 1)
      cases anon <;> simp [mapFieldsToTags, he] <;> exact ⟨e, rfl⟩

/-- C5: If any binding of a container's (expanded) binding list is not a
pointer, or does not resolve to a field of the enclosing container, then
tag resolution fails with an error and the whole schema-generation call
(`NewRequest` over any batch containing that container) returns that kind
of error instead of a schema — the failing binding is never silently
skipped. -/
theorem c5_bad_binding_aborts_schema :
    ∀ (nm : String) (bs : List SBinding) (b : SBinding),
      b ∈ bs → badBinding b = true →
      (∃ e, schemaDocTags nm bs = .error e)
      ∧ ∀ pre post : List (String × List SBinding),
          ∃ e, newRequestTags (pre ++ (nm, bs) :: post) = .error e := by
  intro nm bs b hmem hbad
  obtain ⟨e, he⟩ := mapFieldsToTags_error_of_bad hmem hbad nm 0
  refine ⟨⟨e, he⟩, ?_⟩
  intro pre post
  have hgo : ∀ l : List (String × List SBinding),
      ∃ e', newRequestTags.go (l ++ (nm, bs) :: post) = .error e' := by
    intro l
    induction l with
    | nil => exact ⟨e, by simp [newRequestTags.go, schemaDocTags] at he ⊢; simp [he]⟩
    | cons hd rest ih =>
      obtain ⟨e', he'⟩ := ih
      obtain ⟨nm', bs'⟩ := hd
      cases h : schemaDocTags nm' bs' with
      | error e'' => exact ⟨e'', by simp [newRequestTags.go, h]⟩
      | ok ts => exact ⟨e', by simp [newRequestTags.go, h, he', Except.map]⟩
  obtain ⟨e', he'⟩ := hgo pre
  refine ⟨e', ?_⟩
  have hne : pre ++ (nm, bs) :: post ≠ [] := by simp
  cases hl : pre ++ (nm, bs) :: post with
  | nil => exact absurd hl hne
  | cons a l => rw [← hl]; simpa [newRequestTags, hl] using he'

/-- Witness for C5: a container holding one resolved binding and one
non-pointer binding; schema generation reports the non-pointer target at
index 1 and `NewRequest` aborts. -/
theorem c5_bad_binding_aborts_schema_witness :
    (∃ e, schemaDocTags "demo" [.resolved false "name", .nonPtr "string"] = .error e)
    ∧ ∃ e, newRequestTags [("demo", [.resolved false "name", .nonPtr "string"])] = .error e := by
  have h := c5_bad_binding_aborts_schema "demo"
    [.resolved false "name", .nonPtr "string"] (.nonPtr "string")
    (by simp) rfl
  exact ⟨h.1, by simpa using h.2 [] []⟩

/-! ## The `Describe` half of the Rule Contract (claim C6)

`Describe(name, schema, ref)` receives the enclosing struct's schema (where
`Required` membership lives) and the property's schema ref (where bounds,
flags and description fragments live).  Both are modelled as records; each
rule's `Describe` is a pure state transformer on the pair.
-/

/-- The property schema node (`ref.Value`) decorated by `Describe`. -/
structure PropSchema where
  typ : String
  description : String
  deprecated : Bool
  nullable : Bool
  uniqueItems : Bool
  minV : Option Int
  maxV : Option Int
  format : String
deriving DecidableEq, Repr

/-- The enclosing struct schema (`schema`), carrying the required list. -/
structure ParentSchema where
  required : List String
deriving DecidableEq, Repr

/-- The `Describe` implementations the claims exercise, as declared data. -/
inductive DRule where
  | requiredD : DRule
  | deprecateD : DRule
  | notNilD : DRule
  | uniqueD : DRule
  | minD (t : Int) : DRule
  | maxD (t : Int) : DRule
  | lengthD (lo hi : Int) : DRule
  | describeD (d : String) : DRule
  | hasAlphaD : DRule

/-- The description-append convention shared by `describe`, `stringRule`,
`inlineRule`, `keyInRule`, `custom` and `DateRule`: insert a single space
separator when the existing description is non-empty and does not already
end in one (`strings.HasSuffix(desc, " ")` is `last char = ' '` for the
one-character suffix), then append. -/
def appendDesc (desc d : String) : String :=
  (if desc ≠ "" ∧ desc.toList.getLast? ≠ some ' ' then desc ++ " " else desc) ++ d

/-- Model of one `Describe` call (part_004, required.go, minmax.go, length.go,
part_002, part_003, part_012). -/
def describeRun (r : DRule) (name : String) (s : ParentSchema × PropSchema) :
    ParentSchema × PropSchema :=
  match r with
  | .requiredD => ({ required := s.1.required ++ [name] }, s.2)
  | .deprecateD => (s.1, { s.2 with deprecated := true })
  | .notNilD => (s.1, { s.2 with nullable := false })
  | .uniqueD => (s.1, { s.2 with uniqueItems := true })
  | .minD t =>
    (s.1, { s.2 with
      format := if s.2.typ = "string" then "int" else s.2.format
      minV := some t })
  | .maxD t =>
    (s.1, { s.2 with
      format := if s.2.typ = "string" then "int" else s.2.format
      maxV := some t })
  | .lengthD lo hi => (s.1, { s.2 with minV := some lo, maxV := some hi })
  | .describeD d => (s.1, { s.2 with description := appendDesc s.2.description d })
  | .hasAlphaD =>
    (s.1, { s.2 with
      description := s.2.description ++ "Must contain at least one alphabetic character. " })

/-- The zero-value accumulator a generation run starts from. -/
def emptyAccum : ParentSchema × PropSchema :=
  ({ required := [] },
   { typ := "string", description := "", deprecated := false, nullable := true,
     uniqueItems := false, minV := none, maxV := none, format := "" })

/-- C6 counterexample: `Describe` is not idempotent: running the
`Required` rule's `Describe` twice appends the field name to the required
list twice, leaving the accumulator in a different state than one call. -/
theorem c6_describe_idempotent_counterexample :
    describeRun .requiredD "name" (describeRun .requiredD "name" emptyAccum) ≠
      describeRun .requiredD "name" emptyAccum := by
  decide

theorem appendDesc_length (x d : String) :
    x.length + d.length ≤ (appendDesc x d).length := by
  unfold appendDesc
  split
  · simp [String.length_append]
  · simp [String.length_append]

theorem appendDesc_ne_of_ne_empty {d : String} (hd : d ≠ "") (x : String) :
    appendDesc (appendDesc x d) d ≠ appendDesc x d := by
  intro h
  have hlen := congrArg String.length h
  have hgrow := appendDesc_length (appendDesc x d) d
  have hdpos : 0 < d.length := by
    rcases Nat.eq_zero_or_pos d.length with h0 | hpos
    · have h0' : d.data.length = 0 := h0
      exact absurd (String.ext (List.length_eq_zero.mp h0')) hd
    · exact hpos
  omega

/-- C6 amended: `Describe` is idempotent for the attribute-setting rules
(`Deprecate`, `NotNil`, `Unique`, `Min`, `Max`, `Length`) — a second call
leaves the schema and accumulator unchanged — but not for the appending
rules: `Required` extends the required list on every call; `HasAlphabetic`
appends its fixed fragment on every call; and the `appendDesc`-based
description rules (`Describe`, string rules, inline rules, `KeyIn`,
`Custom`, `Date` bounds) append their fragment on every call, so a second
call with a non-empty fragment always changes the accumulator. -/
theorem c6_describe_idempotent_amended :
    (∀ (name : String) (s : ParentSchema × PropSchema),
        describeRun .deprecateD name (describeRun .deprecateD name s) =
          describeRun .deprecateD name s)
    ∧ (∀ name s, describeRun .notNilD name (describeRun .notNilD name s) =
        describeRun .notNilD name s)
    ∧ (∀ name s, describeRun .uniqueD name (describeRun .uniqueD name s) =
        describeRun .uniqueD name s)
    ∧ (∀ (t : Int) name s, describeRun (.minD t) name (describeRun (.minD t) name s) =
        describeRun (.minD t) name s)
    ∧ (∀ (t : Int) name s, describeRun (.maxD t) name (describeRun (.maxD t) name s) =
        describeRun (.maxD t) name s)
    ∧ (∀ (lo hi : Int) name s,
        describeRun (.lengthD lo hi) name (describeRun (.lengthD lo hi) name s) =
          describeRun (.lengthD lo hi) name s)
    ∧ (∀ name s, (describeRun .requiredD name (describeRun .requiredD name s)).1.required =
        s.1.required ++ [name] ++ [name])
    ∧ (∀ name s, (describeRun .hasAlphaD name (describeRun .hasAlphaD name s)).2.description =
        s.2.description ++ "Must contain at least one alphabetic character. "
          ++ "Must contain at least one alphabetic character. ")
    ∧ (∀ (d : String) (name : String) (s : ParentSchema × PropSchema),
        (describeRun (.describeD d) name (describeRun (.describeD d) name s)).2.description =
          appendDesc (appendDesc s.2.description d) d)
    ∧ ∀ d : String, d ≠ "" → ∀ (name : String) (s : ParentSchema × PropSchema),
        describeRun (.describeD d) name (describeRun (.describeD d) name s) ≠
          describeRun (.describeD d) name s := by
  refine ⟨?_, ?_, ?_, ?_, ?_, ?_, fun name s => by simp [describeRun],
    fun name s => by simp [describeRun, String.append_assoc],
    fun d name s => by simp [describeRun], ?_⟩
  · intro name s; obtain ⟨ps, pr⟩ := s; rfl
  · intro name s; obtain ⟨ps, pr⟩ := s; rfl
  · intro name s; obtain ⟨ps, pr⟩ := s; rfl
  · intro t name s; obtain ⟨ps, pr⟩ := s
    simp only [describeRun]
    by_cases h : pr.typ = "string" <;> simp [h]
  · intro t name s; obtain ⟨ps, pr⟩ := s
    simp only [describeRun]
    by_cases h : pr.typ = "string" <;> simp [h]
  · intro lo hi name s; obtain ⟨ps, pr⟩ := s; rfl
  · intro d hd name s heq
    have h2 : appendDesc (appendDesc s.2.description d) d = appendDesc s.2.description d := by
      simpa [describeRun] using congrArg (fun st => st.2.description) heq
    exact appendDesc_ne_of_ne_empty hd s.2.description h2

/-- Witness for C6 amended: a second `Describe("money")` call on the
zero-value accumulator changes the accumulator again (the non-empty
fragment is appended twice). -/
theorem c6_describe_idempotent_amended_witness :
    describeRun (.describeD "money") "amt"
        (describeRun (.describeD "money") "amt" emptyAccum) ≠
      describeRun (.describeD "money") "amt" emptyAccum :=
  c6_describe_idempotent_amended.2.2.2.2.2.2.2.2.2 "money" (by decide) "amt" emptyAccum

/-! ## The Normalization Traversal (claims C7, C10)

`normalizeRecursive`/`walkNormalize` (part_009).  `NVal` models the value
tree the walk visits; a struct node carries whether its (pointer-receiver)
`Normalize` hook exists, an invocation counter standing in for the hook's
self-mutation, a label used to record invocation order, and its field list.
Every hook call site in the source passes an address (`field.Addr()`,
`field.Interface()` on a pointer field, `cp.Interface()` on a map copy), so
`callNormalize` fires exactly on hooked struct nodes reached through such an
address; the traversal functions below assume the pointer-rooted entry of
`UnmarshalAndValidate` (`dst` is a pointer), under which every struct field
is addressable.  Hook bodies are abstracted as the counter increment: a hook
that rewrites its own subtree is outside the model. -/

inductive NVal where
  | prim : NVal
  | strct (hook : Bool) (cnt : Nat) (id : Nat) (fields : List NVal) : NVal
  | nptr (p : Option NVal) : NVal
  | nslice (elems : List NVal) : NVal
  | nmap (entries : List (String × NVal)) : NVal

/-- Model of `callNormalize` through an address: run the hook when the target is a
struct whose type implements `Normalizer`/`ContextNormalizer`. -/
def callNormalize : NVal → NVal × List Nat
  | .strct true c id fs => (.strct true (c + 1) id fs, [id])
  | v => (v, [])

mutual
/-- The treatment of one struct node inside `walkNormalize`:
`callNormalize(field.Addr().Interface())` followed by `walkNormalize(field)`
over its fields — the node's own hook strictly before its children's. -/
def normStruct (hook : Bool) (cnt : Nat) (id : Nat) (fs : List NVal) : NVal × List Nat :=
  let cnt' := if hook then cnt + 1 else cnt
  let t1 : List Nat := if hook then [id] else []
  let r := walkFields fs
  (.strct hook cnt' id r.1, t1 ++ r.2)

/-- Model of the `for i := range rv.NumField()` loop of `walkNormalize`. -/
def walkFields : List NVal → List NVal × List Nat
  | [] => ([], [])
  | f :: rest =>
    let r1 := walkField f
    let r2 := walkFields rest
    (r1.1 :: r2.1, r1.2 ++ r2.2)

/-- One field of the struct being walked, by kind: struct fields get their
hook and a recursive walk; non-nil pointer fields get `callNormalize` on
the pointer and, when the pointee is a struct, a recursive walk; slice and
map fields iterate; anything else is untouched. -/
def walkField : NVal → NVal × List Nat
  | .strct h c id fs => normStruct h c id fs
  | .nptr none => (.nptr none, [])
  | .nptr (some (.strct h c id fs)) =>
    let r := normStruct h c id fs
    (.nptr (some r.1), r.2)
  | .nptr (some w) => (.nptr (some w), [])
  | .nslice xs =>
    let r := walkElems xs
    (.nslice r.1, r.2)
  | .nmap es =>
    let r := walkEntries es
    (.nmap r.1, r.2)
  | .prim => (.prim, [])

/-- The slice-element loop: the inner `switch elem.Kind()` only handles
struct and pointer elements. -/
def walkElems : List NVal → List NVal × List Nat
  | [] => ([], [])
  | e :: rest =>
    let r1 := walkElem e
    let r2 := walkElems rest
    (r1.1 :: r2.1, r1.2 ++ r2.2)

def walkElem : NVal → NVal × List Nat
  | .strct h c id fs => normStruct h c id fs
  | .nptr (some (.strct h c id fs)) =>
    let r := normStruct h c id fs
    (.nptr (some r.1), r.2)
  | v => (v, [])

/-- The map-entry loop: only values of struct kind are handled — copied out
(map values are not addressable), normalized, and written back under the
same key. -/
def walkEntries : List (String × NVal) → List (String × NVal) × List Nat
  | [] => ([], [])
  | kv :: rest =>
    let r1 := walkEntry kv
    let r2 := walkEntries rest
    (r1.1 :: r2.1, r1.2 ++ r2.2)

def walkEntry : String × NVal → (String × NVal) × List Nat
  | (k, .strct h c id fs) =>
    let r := normStruct h c id fs
    ((k, r.1), r.2)
  | (k, v) => ((k, v), [])
end

/-- Model of `normalizeRecursive` on a (typed, possibly nil) pointer argument, the
shape `UnmarshalAndValidate` always passes: call the top-level hook first,
then — when the pointee is a struct — walk its fields. -/
def normalizeRecursiveP : Option NVal → Option NVal × List Nat
  | none => (none, [])
  | some v =>
    let r1 := callNormalize v
    match r1.1 with
    | .strct h c id fs =>
      let r2 := walkFields fs
      (some (.strct h c id r2.1), r1.2 ++ r2.2)
    | w => (some w, r1.2)

/-- C7: The top-level value's hook is always invoked before any nested
hook; every struct node's own hook is invoked before descending into its
children, and sibling fields are walked depth-first in declaration order;
map values of struct kind are copied out, normalized, and written back into
the map under the same key. -/
theorem c7_normalization_order :
    (∀ (c id : Nat) (fs : List NVal),
        (normalizeRecursiveP (some (.strct true c id fs))).2 = id :: (walkFields fs).2)
    ∧ (∀ (h : Bool) (c id : Nat) (fs : List NVal),
        (normStruct h c id fs).2 = (if h then [id] else []) ++ (walkFields fs).2)
    ∧ (∀ (f : NVal) (rest : List NVal),
        (walkFields (f :: rest)).2 = (walkField f).2 ++ (walkFields rest).2)
    ∧ ∀ (k : String) (h : Bool) (c id : Nat) (fs : List NVal),
        walkEntry (k, .strct h c id fs) =
          ((k, (normStruct h c id fs).1), (normStruct h c id fs).2) := by
  refine ⟨fun c id fs => ?_, fun h c id fs => ?_, fun f rest => ?_, fun k h c id fs => ?_⟩
  · simp [normalizeRecursiveP, callNormalize, normStruct]
  · simp [normStruct]
  · simp [walkFields]
  · simp [walkEntry]

/-- C10: Map entries whose values are of pointer kind are never
normalized: the map loop of `walkNormalize` only handles values of struct
kind, so pointer-valued entries are left unchanged and none of their hooks
is ever invoked. -/
theorem c10_map_pointer_values_skipped :
    (∀ (k : String) (p : Option NVal), walkEntry (k, .nptr p) = ((k, .nptr p), []))
    ∧ ∀ es : List (String × NVal), (∀ kv ∈ es, ∃ p, kv.2 = NVal.nptr p) →
        walkEntries es = (es, []) := by
  have hone : ∀ (k : String) (p : Option NVal),
      walkEntry (k, .nptr p) = ((k, .nptr p), []) := by
    intro k p
    cases p with
    | none => simp [walkEntry]
    | some w => cases w <;> simp [walkEntry]
  refine ⟨hone, ?_⟩
  intro es hall
  induction es with
  | nil => simp [walkEntries]
  | cons kv rest ih =>
    obtain ⟨p, hp⟩ := hall kv (List.mem_cons_self kv rest)
    obtain ⟨k, v⟩ := kv
    simp only at hp
    subst hp
    have h2 := ih (fun kv h => hall kv (List.mem_cons_of_mem _ h))
    simp [walkEntries, hone, h2]

/-- Witness for C10: a map from "k" to a pointer at a hooked struct is left
untouched with no hook invocation. -/
theorem c10_map_pointer_values_skipped_witness :
    walkEntries [("k", NVal.nptr (some (.strct true 0 7 [])))] =
      ([("k", NVal.nptr (some (.strct true 0 7 [])))], []) :=
  c10_map_pointer_values_skipped.2 [("k", NVal.nptr (some (.strct true 0 7 [])))]
    (fun kv h => ⟨some (.strct true 0 7 []), by
      rcases List.mem_cons.mp h with rfl | h'
      · rfl
      · cases h'⟩)

/-- Witness for C8 amended, at nil, zero, and empty-string inputs. -/
theorem c8_empty_skip_amended_witness :
    thresholdValidate true 3 .vnil = none
    ∧ thresholdValidate false 3 (.vint 0) = none
    ∧ hasAlphaValidate false (.vstr "") = none
    ∧ (∃ m, hasAlphaValidate false .vnil = some m)
    ∧ requiredValidate (.vstr "") = some "cannot be blank" :=
  ⟨c8_empty_skip_amended.1 3 .vnil rfl,
   c8_empty_skip_amended.2.1 3 (.vint 0) rfl,
   c8_empty_skip_amended.2.2.1 false,
   c8_empty_skip_amended.2.2.2.1 .vnil (fun s h => by cases h),
   c8_empty_skip_amended.2.2.2.2 (.vstr "") rfl⟩

end APIValidation
